import Mathlib

/-!
Verification of the weighted reel generation logic of `app.py` (a Flask
slot-machine backend).  The Python functions `load_config`,
`load_symbol_weights`, `get_reel_strip_length` and
`generate_weighted_strip` are embedded shallowly:

* JSON documents are modelled by the inductive type `JsonVal`; Python
  floats are modelled by rationals (no claim under study depends on
  floating-point rounding).
* the result of opening and `json.load`-ing a configuration file is
  modelled by `ReadResult` (file missing / any other read or parse
  failure / a parsed document);
* Python exceptions that escape a function are modelled with `Except`;
* the two sources of randomness, `random.choices` and `random.choice`,
  are modelled by an oracle `Rand`; `RandValid` states exactly the
  contract the `random` module guarantees (k results drawn from the
  population; a chosen element is a member of the given list).  The
  `random.choice` oracle takes a call counter so that two calls on the
  same list may return different elements, as with a stateful RNG.
-/

namespace Slotto

/-- A parsed JSON value (the possible results of `json.load`). -/
inductive JsonVal where
  | null
  | bool (b : Bool)
  | num (q : ℚ)
  | str (s : String)
  | arr (elems : List JsonVal)
  | obj (fields : List (String × JsonVal))

/-- Python exceptions that can escape the embedded functions. -/
inductive PyErr where
  | attributeError
  | valueError
  deriving DecidableEq

deriving instance DecidableEq for Except

/-- Outcome of opening and parsing a configuration file:
`fileNotFound` models `FileNotFoundError`; `readError` models any other
exception raised while opening or `json.load`-ing the file (in
particular a `json.JSONDecodeError` on malformed JSON); `parsed v` is a
successful parse. -/
inductive ReadResult where
  | fileNotFound
  | readError
  | parsed (v : JsonVal)

/-- Python truthiness of a JSON value (`bool(v)`), used by `v or {}`. -/
def pyFalsy : JsonVal → Bool
  | .null => true
  | .bool b => !b
  | .num q => q == 0
  | .str s => s == ""
  | .arr l => l.isEmpty
  | .obj f => f.isEmpty

/-- Value of a list of decimal digit characters (most significant first). -/
def natOfDigits (cs : List Char) : Nat :=
  cs.foldl (fun n c => n * 10 + (c.toNat - 48)) 0

/-- Strip leading and trailing spaces, as `int(s)` / `float(s)` do. -/
def trimSpaces (cs : List Char) : List Char :=
  ((cs.dropWhile (· = ' ')).reverse.dropWhile (· = ' ')).reverse

/-- `int(s)` on a string: optional sign followed by decimal digits;
anything else raises `ValueError` (`none`).  (Exotic accepted forms such
as underscores between digits are not modelled; no claim uses them.) -/
def pyIntOfStr (s : String) : Option Int :=
  let cs := trimSpaces s.toList
  let (sgn, ds) : Int × List Char :=
    match cs with
    | '-' :: r => (-1, r)
    | '+' :: r => (1, r)
    | _ => (1, cs)
  if ds ≠ [] ∧ ds.all Char.isDigit then some (sgn * (natOfDigits ds : Int))
  else none

/-- `float(s)` on a string: optional sign, then digits with an optional
decimal point (at least one digit overall); anything else raises
`ValueError` (`none`).  (Exponents, `inf`/`nan` and underscores are not
modelled; no claim uses them.) -/
def pyFloatOfStr (s : String) : Option ℚ :=
  let cs := trimSpaces s.toList
  let (sgn, ds) : ℚ × List Char :=
    match cs with
    | '-' :: r => (-1, r)
    | '+' :: r => (1, r)
    | _ => (1, cs)
  let ip := ds.takeWhile Char.isDigit
  let rest := ds.dropWhile Char.isDigit
  match rest with
  | [] => if ip ≠ [] then some (sgn * (natOfDigits ip : ℚ)) else none
  | '.' :: fp =>
    if fp.all Char.isDigit ∧ (ip ≠ [] ∨ fp ≠ []) then
      some (sgn * ((natOfDigits ip : ℚ) + (natOfDigits fp : ℚ) / (10 ^ fp.length)))
    else none
  | _ => none

/-- `float(v)` on an arbitrary value: numbers and booleans convert,
numeric strings parse, everything else raises `TypeError`/`ValueError`
(`none`). -/
def pyFloat : JsonVal → Option ℚ
  | .null => none
  | .bool b => some (if b then 1 else 0)
  | .num q => some q
  | .str s => pyFloatOfStr s
  | .arr _ => none
  | .obj _ => none

/-- Truncation toward zero, the behaviour of Python `int` on a float. -/
def pyTrunc (q : ℚ) : Int :=
  if q < 0 then -(Rat.floor (-q)) else Rat.floor q

/-- `int(v)` on an arbitrary value: booleans and numbers convert
(floats truncate toward zero), integer-literal strings parse, everything
else raises `TypeError`/`ValueError` (`none`). -/
def pyInt : JsonVal → Option Int
  | .null => none
  | .bool b => some (if b then 1 else 0)
  | .num q => some (pyTrunc q)
  | .str s => pyIntOfStr s
  | .arr _ => none
  | .obj _ => none

/-- A Python dict from symbol identifiers to weights, in insertion
order.  Dicts produced by the program always have pairwise distinct
keys. -/
abbrev WeightTable := List (String × ℚ)

/-- `DEFAULT_WEIGHTS` of `app.py` (module-level default weight table). -/
def DEFAULT_WEIGHTS : WeightTable :=
  [("coin_1", 25), ("coin_stack", 10), ("coin_pile", 5),
   ("gem_1", 15), ("gem_many", 5), ("bomb_1", 15), ("bomb_atom", 5),
   ("card_item", 10), ("random_item", 5)]

/-- Dict assignment `m[k] = v`: an existing key keeps its position and
gets the new value, a new key is appended at the end. -/
def setKey (m : WeightTable) (k : String) (v : ℚ) : WeightTable :=
  if m.any (fun p => p.1 == k) then
    m.map (fun p => if p.1 = k then (k, v) else p)
  else m ++ [(k, v)]

/-- `(data or {})` followed by use as a dict: a falsy value collapses to
the empty dict, a truthy non-dict raises `AttributeError` on `.get`. -/
def pyOrEmptyDict (data : JsonVal) : Except PyErr (List (String × JsonVal)) :=
  if pyFalsy data then .ok []
  else match data with
    | .obj fields => .ok fields
    | _ => .error .attributeError

/-- Lines 58 of `app.py`: `symbols = (data or {}).get('symbols', {})`,
followed by the iteration `symbols.items()`, which raises
`AttributeError` when the `symbols` entry is present but not a dict. -/
def pyGetSymbols (data : JsonVal) : Except PyErr (List (String × JsonVal)) := do
  let fields ← pyOrEmptyDict data
  match (List.lookup "symbols" fields).getD (.obj []) with
  | .obj sfields => pure sfields
  | _ => .error .attributeError

/-- One iteration of the merge loop of `load_symbol_weights` (lines
62-72 of `app.py`): entries whose value is not a dict are skipped;
otherwise read `probability` (or, failing that, `weight`; a present key
wins even when its value is `null`), coerce to float, skip entries that
fail coercion or are negative, and assign the rest. -/
def merge_step (merged : WeightTable) (p : String × JsonVal) : WeightTable :=
  match p.2 with
  | .obj cfg =>
    let raw := (List.lookup "probability" cfg).getD
      ((List.lookup "weight" cfg).getD .null)
    match pyFloat raw with
    | none => merged
    | some w => if w < 0 then merged else setKey merged p.1 w
  | _ => merged

/-- The merge loop of `load_symbol_weights`, folded over the entries of
the `symbols` object in order. -/
def mergeWeights (init : WeightTable) (symbols : List (String × JsonVal)) : WeightTable :=
  symbols.foldl merge_step init

/-- `load_symbol_weights` of `app.py`: any failure to open or parse the
file falls back to a copy of the defaults; otherwise the overrides are
merged over a copy of the defaults, and an all-zero (more precisely,
non-positive-total) merged table falls back to the defaults. -/
def load_symbol_weights (src : ReadResult) : Except PyErr WeightTable :=
  match src with
  | .fileNotFound => .ok DEFAULT_WEIGHTS
  | .readError => .ok DEFAULT_WEIGHTS
  | .parsed data => do
    let symbols ← pyGetSymbols data
    let merged := mergeWeights DEFAULT_WEIGHTS symbols
    if (merged.map Prod.snd).sum ≤ 0 then pure DEFAULT_WEIGHTS
    else pure merged

/-- `load_config` of `app.py`: only `FileNotFoundError` is caught (and
yields `None`); any other exception — in particular the
`json.JSONDecodeError` raised on malformed JSON — propagates to the
caller. -/
def load_config (src : ReadResult) : Except PyErr (Option JsonVal) :=
  match src with
  | .fileNotFound => .ok none
  | .readError => .error .valueError
  | .parsed v => .ok (some v)

/-- `get_reel_strip_length` of `app.py`: `config = load_config() or {}`,
then `length = config.get('reel_strip_length', 6)`, `int(length)` with
fallback 6 on `TypeError`/`ValueError`, and finally `max(3, length)`. -/
def get_reel_strip_length (src : ReadResult) : Except PyErr Int := do
  let config ← load_config src
  let fields ←
    match config with
    | none => Except.ok ([] : List (String × JsonVal))
    | some v => pyOrEmptyDict v
  let lengthVal := (List.lookup "reel_strip_length" fields).getD (.num 6)
  let n : Int := (pyInt lengthVal).getD 6
  pure (max 3 n)

/-- Oracle for the two randomness sources of `app.py`.
`choicesFn pop w k` is the outcome of `random.choices(pop, weights=w, k=k)`;
`choiceFn j l` is the outcome of the `j`-th call to `random.choice(l)`
(the counter `j` lets successive calls on equal lists differ, as with a
stateful RNG). -/
structure Rand where
  choicesFn : List String → List ℚ → Nat → List String
  choiceFn : Nat → List Nat → Nat

/-- The contract of the `random` module: `random.choices` returns `k`
elements of the (nonempty) population, and `random.choice` returns a
member of the (nonempty) list. -/
def RandValid (r : Rand) : Prop :=
  (∀ pop w k, pop ≠ [] →
    (r.choicesFn pop w k).length = k ∧ ∀ s ∈ r.choicesFn pop w k, s ∈ pop) ∧
  (∀ j l, l ≠ [] → r.choiceFn j l ∈ l)

/-- Lines 91-96 of `app.py`: `bm = float(bomb_multiplier)` with fallback
1.0 on `TypeError`/`ValueError`, then negative values are reset to 1.0. -/
def normalize_bm (bomb_multiplier : JsonVal) : ℚ :=
  match pyFloat bomb_multiplier with
  | none => 1
  | some q => if q < 0 then 1 else q

/-- `if k in m: m[k] = float(m[k]) * q`.  With the pairwise-distinct
keys of a Python dict this is exactly a pointwise update of the entries
keyed `k` (and the `in` guard is absorbed: when `k` is absent the map
changes nothing). -/
def mulKeyIfPresent (m : WeightTable) (k : String) (q : ℚ) : WeightTable :=
  m.map (fun p => if p.1 = k then (p.1, p.2 * q) else p)

/-- Lines 97-101 of `app.py`: when the normalized multiplier differs
from 1.0, scale the weights of `bomb_1` and `bomb_atom` (when present). -/
def bomb_adjust (weights_map : WeightTable) (bm : ℚ) : WeightTable :=
  if bm ≠ 1 then
    mulKeyIfPresent (mulKeyIfPresent weights_map "bomb_1" bm) "bomb_atom" bm
  else weights_map

/-- Line 114 of `app.py`:
`[i for i, sym in enumerate(strip) if sym not in bias_symbols]`
(`enumerate(strip)` pairs each index `i < len(strip)` with `strip[i]`). -/
def available_indices (bias_symbols strip : List String) : List Nat :=
  (List.range strip.length).filter (fun i => strip.getD i "" ∉ bias_symbols)

/-- One iteration of the rigging loop (lines 113-117 of `app.py`): pick
a random position not currently holding any bias-list symbol and
overwrite it with `bias_sym`; when no such position exists the insertion
is skipped.  `j` is the index of the `random.choice` call. -/
def rig_step (bias_symbols : List String) (rand : Rand) (strip : List String)
    (bias_sym : String) (j : Nat) : List String :=
  let avail := available_indices bias_symbols strip
  if avail = [] then strip
  else strip.set (rand.choiceFn j avail) bias_sym

/-- The rigging loop of `generate_weighted_strip` (lines 112-117 of
`app.py`): process the bias symbols in list order, counting the
`random.choice` calls with `j`. -/
def rig_loop (bias_symbols : List String) (rand : Rand) :
    List String → List String → Nat → List String
  | strip, [], _ => strip
  | strip, bias_sym :: rest, j =>
    rig_loop bias_symbols rand (rig_step bias_symbols rand strip bias_sym j) rest (j + 1)

/-- `generate_weighted_strip` of `app.py`, with the result of the inner
`load_symbol_weights()` call passed in as `weights_map0` and the
randomness passed in as an oracle.  `random.choices` raises `ValueError`
when the total weight is not positive. -/
def generate_weighted_strip (weights_map0 : WeightTable) (length : Nat)
    (bias_symbols : Option (List String)) (bomb_multiplier : JsonVal)
    (rand : Rand) : Except PyErr (List String) :=
  let bm := normalize_bm bomb_multiplier
  let weights_map := bomb_adjust weights_map0 bm
  let population := weights_map.map Prod.fst
  let weights := weights_map.map Prod.snd
  if weights.sum ≤ 0 then .error .valueError
  else
    let strip := rand.choicesFn population weights length
    match bias_symbols with
    | some bs => if bs.isEmpty then .ok strip else .ok (rig_loop bs rand strip bs 0)
    | none => .ok strip

/-!
A heap model for the frame property: Python dicts are mutable objects,
so to state that `load_symbol_weights` and `generate_weighted_strip`
never mutate the module-level `DEFAULT_WEIGHTS` dict we make the
references explicit.  A `Heap` is a store of dict cells addressed by
allocation index; `DEFAULT_WEIGHTS` lives in one cell, `.copy()` is an
allocation, and every dict-entry assignment of the source becomes a
`Heap.write` on the cell it targets.
-/

/-- A store of weight-table cells; references are allocation indices. -/
structure Heap where
  cells : List WeightTable

/-- Dereference. -/
def Heap.get (h : Heap) (r : Nat) : WeightTable := h.cells.getD r []

/-- Allocate a fresh cell (models `dict.copy()`). -/
def Heap.alloc (h : Heap) (t : WeightTable) : Heap × Nat :=
  (⟨h.cells ++ [t]⟩, h.cells.length)

/-- Overwrite the cell at `r`. -/
def Heap.write (h : Heap) (r : Nat) (t : WeightTable) : Heap :=
  ⟨h.cells.set r t⟩

/-- One iteration of the merge loop, acting on the cell `m` that holds
the working copy (`merged[sym] = w` is a write to that cell). -/
def merge_step_heap (h : Heap) (m : Nat) (p : String × JsonVal) : Heap :=
  match p.2 with
  | .obj cfg =>
    let raw := (List.lookup "probability" cfg).getD
      ((List.lookup "weight" cfg).getD .null)
    match pyFloat raw with
    | none => h
    | some w => if w < 0 then h else h.write m (setKey (h.get m) p.1 w)
  | _ => h

/-- The merge loop of `load_symbol_weights` on the heap. -/
def merge_loop_heap (h : Heap) (m : Nat) (symbols : List (String × JsonVal)) : Heap :=
  symbols.foldl (fun h p => merge_step_heap h m p) h

/-- `load_symbol_weights` with explicit references: `dref` is the cell
holding the module-level `DEFAULT_WEIGHTS`; every `DEFAULT_WEIGHTS.copy()`
allocates a fresh cell; the returned reference points at the table the
caller receives. -/
def load_symbol_weights_heap (h : Heap) (dref : Nat) (src : ReadResult) :
    Heap × Except PyErr Nat :=
  match src with
  | .fileNotFound => let (h1, r) := h.alloc (h.get dref); (h1, .ok r)
  | .readError => let (h1, r) := h.alloc (h.get dref); (h1, .ok r)
  | .parsed data =>
    match pyGetSymbols data with
    | .error e => (h, .error e)
    | .ok symbols =>
      let (h1, m) := h.alloc (h.get dref)
      let h2 := merge_loop_heap h1 m symbols
      if ((h2.get m).map Prod.snd).sum ≤ 0 then
        let (h3, r) := h2.alloc (h2.get dref); (h3, .ok r)
      else (h2, .ok m)

/-- `generate_weighted_strip` with explicit references: the
bomb-multiplier adjustment writes to the cell returned by
`load_symbol_weights_heap` (the per-call working copy), never to `dref`. -/
def generate_weighted_strip_heap (h : Heap) (dref : Nat) (src : ReadResult)
    (length : Nat) (bias_symbols : Option (List String))
    (bomb_multiplier : JsonVal) (rand : Rand) :
    Heap × Except PyErr (List String) :=
  match load_symbol_weights_heap h dref src with
  | (h1, .error e) => (h1, .error e)
  | (h1, .ok m) =>
    let bm := normalize_bm bomb_multiplier
    let h2 := if bm ≠ 1 then
        let hA := h1.write m (mulKeyIfPresent (h1.get m) "bomb_1" bm)
        hA.write m (mulKeyIfPresent (hA.get m) "bomb_atom" bm)
      else h1
    let weights_map := h2.get m
    let population := weights_map.map Prod.fst
    let weights := weights_map.map Prod.snd
    if weights.sum ≤ 0 then (h2, .error .valueError)
    else
      let strip := rand.choicesFn population weights length
      match bias_symbols with
      | some bs => if bs.isEmpty then (h2, .ok strip)
        else (h2, .ok (rig_loop bs rand strip bs 0))
      | none => (h2, .ok strip)

/-!  ### A concrete valid randomness oracle, used to instantiate theorems. -/

/-- The oracle that always returns the first admissible outcome: the
base draw is the head of the population repeated, and `random.choice`
picks the head of the list. -/
def exRand : Rand where
  choicesFn pop _ k := List.replicate k (pop.headD "")
  choiceFn _ l := l.headD 0

theorem exRand_valid : RandValid exRand := by
  constructor
  · intro pop w k hpop
    cases pop with
    | nil => exact absurd rfl hpop
    | cons a t =>
      refine ⟨List.length_replicate .., ?_⟩
      intro s hs
      have := List.eq_of_mem_replicate hs
      simp [exRand, this]
  · intro j l hl
    cases l with
    | nil => exact absurd rfl hl
    | cons a t => simp [exRand]

/-!  ### Helper lemmas about the rigging pass. -/

theorem getD_mem_of_lt {α : Type} {l : List α} {n : Nat} (h : n < l.length) (d : α) :
    l.getD n d ∈ l := by
  rw [List.getD_eq_getElem?_getD, List.getElem?_eq_getElem h]
  exact List.getElem_mem h

theorem mem_available_indices {bias_symbols strip : List String} {i : Nat} :
    i ∈ available_indices bias_symbols strip ↔
      i < strip.length ∧ strip.getD i "" ∉ bias_symbols := by
  simp [available_indices, List.mem_filter, List.mem_range]

theorem available_indices_eq_nil {bias_symbols strip : List String} :
    available_indices bias_symbols strip = [] ↔
      ∀ i < strip.length, strip.getD i "" ∈ bias_symbols := by
  rw [List.eq_nil_iff_forall_not_mem]
  constructor
  · intro h i hi
    by_contra hnb
    exact h i (mem_available_indices.mpr ⟨hi, hnb⟩)
  · intro h i hmem
    rcases mem_available_indices.mp hmem with ⟨hi, hnb⟩
    exact hnb (h i hi)

theorem rig_step_length (bias_symbols : List String) (rand : Rand)
    (strip : List String) (bias_sym : String) (j : Nat) :
    (rig_step bias_symbols rand strip bias_sym j).length = strip.length := by
  rw [rig_step]
  split <;> simp

theorem rig_loop_length (bias_symbols : List String) (rand : Rand)
    (rest : List String) :
    ∀ (strip : List String) (j : Nat),
      (rig_loop bias_symbols rand strip rest j).length = strip.length := by
  induction rest with
  | nil => intro strip j; rfl
  | cons b rest ih =>
    intro strip j
    rw [rig_loop, ih, rig_step_length]

/-- A position that currently holds a bias-list symbol is never the one
selected for overwriting, so one step of rigging leaves it unchanged. -/
theorem rig_step_stable (bias_symbols : List String) {rand : Rand}
    (hr : RandValid rand) (strip : List String) (bias_sym : String) (j : Nat)
    {p : Nat} (hp : p < strip.length)
    (hmem : strip.getD p "" ∈ bias_symbols) :
    (rig_step bias_symbols rand strip bias_sym j).getD p "" = strip.getD p "" := by
  rw [rig_step]
  by_cases h : available_indices bias_symbols strip = []
  · simp [h]
  · have hidx := hr.2 j _ h
    rcases mem_available_indices.mp hidx with ⟨hlt, hnb⟩
    have hne : rand.choiceFn j (available_indices bias_symbols strip) ≠ p := by
      intro he
      rw [he] at hnb
      exact hnb hmem
    rw [if_neg h]
    simp [List.getD_eq_getElem?_getD, List.getElem?_set_ne hne]

/-- A position that holds a bias-list symbol at any intermediate state
of the rigging pass keeps that symbol through all remaining steps. -/
theorem rig_loop_stable (bias_symbols : List String) {rand : Rand}
    (hr : RandValid rand) (rest : List String) :
    ∀ (strip : List String) (j : Nat) {p : Nat}, p < strip.length →
      strip.getD p "" ∈ bias_symbols →
      (rig_loop bias_symbols rand strip rest j).getD p "" = strip.getD p "" := by
  induction rest with
  | nil => intro strip j p hp hmem; rfl
  | cons b rest ih =>
    intro strip j p hp hmem
    rw [rig_loop]
    have hstep := rig_step_stable bias_symbols hr strip b j hp hmem
    have hlen : p < (rig_step bias_symbols rand strip b j).length := by
      rw [rig_step_length]; exact hp
    have hmem1 : (rig_step bias_symbols rand strip b j).getD p "" ∈ bias_symbols := by
      rw [hstep]; exact hmem
    rw [ih _ _ hlen hmem1, hstep]

/-- Once every position of the strip holds a bias-list symbol, the rest
of the rigging pass changes nothing. -/
theorem rig_loop_frozen (bias_symbols : List String) (rand : Rand)
    (rest : List String) :
    ∀ (strip : List String) (j : Nat),
      (∀ i < strip.length, strip.getD i "" ∈ bias_symbols) →
      rig_loop bias_symbols rand strip rest j = strip := by
  induction rest with
  | nil => intro strip j _; rfl
  | cons b rest ih =>
    intro strip j hall
    have hnil : available_indices bias_symbols strip = [] :=
      available_indices_eq_nil.mpr hall
    have hstep : rig_step bias_symbols rand strip b j = strip := by
      rw [rig_step]; simp [hnil]
    rw [rig_loop, hstep, ih _ _ hall]

/-- Every bias symbol still to be processed ends up in the final strip,
unless the final strip consists entirely of bias-list symbols. -/
theorem rig_loop_covers (bias_symbols : List String) {rand : Rand}
    (hr : RandValid rand) (rest : List String) :
    ∀ (strip : List String) (j : Nat), (∀ x ∈ rest, x ∈ bias_symbols) →
      ∀ b ∈ rest, b ∈ rig_loop bias_symbols rand strip rest j ∨
        ∀ s ∈ rig_loop bias_symbols rand strip rest j, s ∈ bias_symbols := by
  induction rest with
  | nil => intro strip j _ b hb; cases hb
  | cons b0 rest ih =>
    intro strip j hsub b hb
    by_cases h : available_indices bias_symbols strip = []
    · right
      have hall := available_indices_eq_nil.mp h
      have hstep : rig_step bias_symbols rand strip b0 j = strip := by
        rw [rig_step]; simp [h]
      have hfr : rig_loop bias_symbols rand strip (b0 :: rest) j = strip := by
        rw [rig_loop, hstep, rig_loop_frozen _ _ _ _ _ hall]
      rw [hfr]
      intro s hs
      rcases List.mem_iff_getElem.mp hs with ⟨n, hn, he⟩
      have := hall n hn
      rw [List.getD_eq_getElem?_getD, List.getElem?_eq_getElem hn] at this
      simpa [he] using this
    · have hidx := hr.2 j _ h
      rcases mem_available_indices.mp hidx with ⟨hlt, hnb⟩
      have hstep : rig_step bias_symbols rand strip b0 j =
          strip.set (rand.choiceFn j (available_indices bias_symbols strip)) b0 := by
        rw [rig_step]; simp [h]
      rcases List.mem_cons.mp hb with hbeq | hbrest
      · left
        subst hbeq
        rw [rig_loop, hstep]
        have hset : (strip.set (rand.choiceFn j (available_indices bias_symbols strip)) b).getD
            (rand.choiceFn j (available_indices bias_symbols strip)) "" = b := by
          simp [List.getD_eq_getElem?_getD, List.getElem?_set_self, hlt]
        have hlen : rand.choiceFn j (available_indices bias_symbols strip) <
            (strip.set (rand.choiceFn j (available_indices bias_symbols strip)) b).length := by
          simpa using hlt
        have hmem1 : (strip.set (rand.choiceFn j (available_indices bias_symbols strip)) b).getD
            (rand.choiceFn j (available_indices bias_symbols strip)) "" ∈ bias_symbols := by
          rw [hset]; exact hsub b (List.mem_cons_self b rest)
        have hfin := rig_loop_stable bias_symbols hr rest _ (j + 1) hlen hmem1
        rw [hset] at hfin
        have hlenfin : rand.choiceFn j (available_indices bias_symbols strip) <
            (rig_loop bias_symbols rand
              (strip.set (rand.choiceFn j (available_indices bias_symbols strip)) b)
              rest (j + 1)).length := by
          rw [rig_loop_length]; exact hlen
        have := getD_mem_of_lt hlenfin ""
        rwa [hfin] at this
      · rw [rig_loop]
        exact ih _ (j + 1) (fun x hx => hsub x (List.mem_cons_of_mem _ hx)) b hbrest

/-!  ### Helper lemmas about the weight-table operations. -/

theorem mem_setKey {m : WeightTable} {k : String} {v : ℚ} {p : String × ℚ}
    (hp : p ∈ setKey m k v) : p ∈ m ∨ p = (k, v) := by
  rw [setKey] at hp
  by_cases h : m.any (fun p => p.1 == k)
  · rw [if_pos h] at hp
    rcases List.mem_map.mp hp with ⟨q, hq, he⟩
    by_cases hk : q.1 = k
    · right; rw [if_pos hk] at he; exact he.symm
    · left; rw [if_neg hk] at he; rwa [he] at hq
  · rw [if_neg h] at hp
    rcases List.mem_append.mp hp with h1 | h1
    · exact Or.inl h1
    · right; simpa using h1

/-- One merge iteration either skips the entry or assigns a
non-negative weight to the entry's key. -/
theorem merge_step_cases (m : WeightTable) (e : String × JsonVal) :
    merge_step m e = m ∨
      ∃ w : ℚ, 0 ≤ w ∧ merge_step m e = setKey m e.1 w := by
  rcases e with ⟨sym, cfg⟩
  cases cfg with
  | obj fields =>
    rcases hw : pyFloat ((List.lookup "probability" fields).getD
        ((List.lookup "weight" fields).getD .null)) with _ | w
    · left; simp [merge_step, hw]
    · by_cases hneg : w < 0
      · left; simp [merge_step, hw, hneg]
      · right
        exact ⟨w, le_of_not_lt hneg, by simp [merge_step, hw, hneg]⟩
  | null => left; rfl
  | bool b => left; rfl
  | num q => left; rfl
  | str s => left; rfl
  | arr l => left; rfl

theorem merge_step_nonneg {m : WeightTable} (hm : ∀ p ∈ m, 0 ≤ p.2)
    (e : String × JsonVal) : ∀ p ∈ merge_step m e, 0 ≤ p.2 := by
  intro p hp
  rcases merge_step_cases m e with h | ⟨w, hw, h⟩
  · rw [h] at hp; exact hm p hp
  · rw [h] at hp
    rcases mem_setKey hp with h1 | h1
    · exact hm p h1
    · rw [h1]; exact hw

theorem mergeWeights_nonneg (symbols : List (String × JsonVal)) :
    ∀ (init : WeightTable), (∀ p ∈ init, 0 ≤ p.2) →
      ∀ p ∈ mergeWeights init symbols, 0 ≤ p.2 := by
  induction symbols with
  | nil => intro init h p hp; exact h p hp
  | cons e rest ih =>
    intro init h p hp
    exact ih (merge_step init e) (merge_step_nonneg h e) p hp

theorem DEFAULT_WEIGHTS_nonneg : ∀ p ∈ DEFAULT_WEIGHTS, 0 ≤ p.2 := by decide

theorem DEFAULT_WEIGHTS_sum_pos : 0 < (DEFAULT_WEIGHTS.map Prod.snd).sum := by
  norm_num [DEFAULT_WEIGHTS]

/-- Looking up the scaled key after `mulKeyIfPresent` multiplies the
value (also when the key is absent, where both sides are `none`). -/
theorem lookup_mulKeyIfPresent_self (m : WeightTable) (k : String) (q : ℚ) :
    List.lookup k (mulKeyIfPresent m k q) = (List.lookup k m).map (fun w => w * q) := by
  induction m with
  | nil => rfl
  | cons p rest ih =>
    rcases p with ⟨a, w⟩
    simp only [mulKeyIfPresent] at ih ⊢
    by_cases hak : a = k
    · subst hak
      simp [List.lookup_cons, ih]
    · have h2 : (k == a) = false := beq_eq_false_iff_ne.mpr (Ne.symm hak)
      simp [List.lookup_cons, hak, h2, ih]

/-- `mulKeyIfPresent` leaves every differently-keyed binding alone. -/
theorem lookup_mulKeyIfPresent_other (m : WeightTable) {k k0 : String}
    (hne : k ≠ k0) (q : ℚ) :
    List.lookup k (mulKeyIfPresent m k0 q) = List.lookup k m := by
  induction m with
  | nil => rfl
  | cons p rest ih =>
    rcases p with ⟨a, w⟩
    simp only [mulKeyIfPresent] at ih ⊢
    by_cases hak : a = k0
    · subst hak
      have h2 : (k == a) = false := beq_eq_false_iff_ne.mpr hne
      simp [List.lookup_cons, h2, ih]
    · by_cases hka : k = a
      · subst hka
        simp [List.lookup_cons, hak]
      · have h2 : (k == a) = false := beq_eq_false_iff_ne.mpr hka
        simp [List.lookup_cons, hak, h2, ih]

/-- `mulKeyIfPresent` does not change the key sequence of the table. -/
theorem keys_mulKeyIfPresent (m : WeightTable) (k : String) (q : ℚ) :
    (mulKeyIfPresent m k q).map Prod.fst = m.map Prod.fst := by
  induction m with
  | nil => rfl
  | cons p rest ih =>
    rcases p with ⟨a, w⟩
    simp only [mulKeyIfPresent] at ih ⊢
    by_cases hak : a = k
    · subst hak
      simp [ih]
    · simp [hak, ih]

/-- The bomb-multiplier adjustment does not change the key sequence. -/
theorem keys_bomb_adjust (m : WeightTable) (bm : ℚ) :
    (bomb_adjust m bm).map Prod.fst = m.map Prod.fst := by
  rw [bomb_adjust]
  split
  · rw [keys_mulKeyIfPresent, keys_mulKeyIfPresent]
  · rfl

/-!  ### Helper lemmas about the heap model. -/

theorem Heap.get_alloc_of_lt {h : Heap} {r : Nat} (hr : r < h.cells.length)
    (t : WeightTable) : ((h.alloc t).1).get r = h.get r := by
  simp [Heap.alloc, Heap.get, List.getD_eq_getElem?_getD, List.getElem?_append_left hr]

theorem Heap.get_write_ne {h : Heap} {r s : Nat} (hne : s ≠ r) (t : WeightTable) :
    (h.write s t).get r = h.get r := by
  simp [Heap.write, Heap.get, List.getD_eq_getElem?_getD, List.getElem?_set_ne hne]

theorem Heap.length_write (h : Heap) (s : Nat) (t : WeightTable) :
    (h.write s t).cells.length = h.cells.length := by
  simp [Heap.write]

/-- One heap merge iteration is either a no-op or a write to the
working-copy cell `m`. -/
theorem merge_step_heap_cases (h : Heap) (m : Nat) (p : String × JsonVal) :
    merge_step_heap h m p = h ∨ ∃ t, merge_step_heap h m p = h.write m t := by
  rcases p with ⟨sym, cfg⟩
  cases cfg with
  | obj fields =>
    rcases hw : pyFloat ((List.lookup "probability" fields).getD
        ((List.lookup "weight" fields).getD .null)) with _ | w
    · left; simp [merge_step_heap, hw]
    · by_cases hneg : w < 0
      · left; simp [merge_step_heap, hw, hneg]
      · right
        exact ⟨setKey (h.get m) sym w, by simp [merge_step_heap, hw, hneg]⟩
  | null => left; rfl
  | bool b => left; rfl
  | num q => left; rfl
  | str s => left; rfl
  | arr l => left; rfl

theorem merge_step_heap_get_ne {h : Heap} {m r : Nat} (hne : m ≠ r)
    (p : String × JsonVal) : (merge_step_heap h m p).get r = h.get r := by
  rcases merge_step_heap_cases h m p with hc | ⟨t, hc⟩
  · rw [hc]
  · rw [hc]; exact Heap.get_write_ne hne t

theorem merge_step_heap_length (h : Heap) (m : Nat) (p : String × JsonVal) :
    (merge_step_heap h m p).cells.length = h.cells.length := by
  rcases merge_step_heap_cases h m p with hc | ⟨t, hc⟩
  · rw [hc]
  · rw [hc]; exact Heap.length_write h m t

theorem merge_loop_heap_get_ne (symbols : List (String × JsonVal))
    {m r : Nat} (hne : m ≠ r) :
    ∀ h : Heap, (merge_loop_heap h m symbols).get r = h.get r := by
  induction symbols with
  | nil => intro h; rfl
  | cons p rest ih =>
    intro h
    have : merge_loop_heap h m (p :: rest) =
        merge_loop_heap (merge_step_heap h m p) m rest := rfl
    rw [this, ih, merge_step_heap_get_ne hne]

theorem merge_loop_heap_length (symbols : List (String × JsonVal)) (m : Nat) :
    ∀ h : Heap, (merge_loop_heap h m symbols).cells.length = h.cells.length := by
  induction symbols with
  | nil => intro h; rfl
  | cons p rest ih =>
    intro h
    have : merge_loop_heap h m (p :: rest) =
        merge_loop_heap (merge_step_heap h m p) m rest := rfl
    rw [this, ih, merge_step_heap_length]

/-- Frame property of `load_symbol_weights_heap`: the default-table cell
is untouched, the heap only grows, and the returned reference is never
the default-table cell. -/
theorem load_symbol_weights_heap_frame (h : Heap) (dref : Nat) (src : ReadResult)
    (hd : dref < h.cells.length) :
    ((load_symbol_weights_heap h dref src).1).get dref = h.get dref ∧
    dref < ((load_symbol_weights_heap h dref src).1).cells.length ∧
    ∀ m, (load_symbol_weights_heap h dref src).2 = .ok m → m ≠ dref := by
  cases src with
  | fileNotFound =>
    refine ⟨Heap.get_alloc_of_lt hd _, ?_, ?_⟩
    · simp [load_symbol_weights_heap, Heap.alloc]; omega
    · intro m hm
      simp only [load_symbol_weights_heap, Heap.alloc, Except.ok.injEq] at hm
      omega
  | readError =>
    refine ⟨Heap.get_alloc_of_lt hd _, ?_, ?_⟩
    · simp [load_symbol_weights_heap, Heap.alloc]; omega
    · intro m hm
      simp only [load_symbol_weights_heap, Heap.alloc, Except.ok.injEq] at hm
      omega
  | parsed data =>
    rcases hsym : pyGetSymbols data with e | symbols
    · constructor
      · simp [load_symbol_weights_heap, hsym]
      · constructor
        · simpa [load_symbol_weights_heap, hsym] using hd
        · intro m hm
          simp [load_symbol_weights_heap, hsym] at hm
    · have hmne : h.cells.length ≠ dref := by omega
      simp only [load_symbol_weights_heap, hsym]
      rw [show (h.alloc (h.get dref)).1 = (⟨h.cells ++ [h.get dref]⟩ : Heap) from rfl,
        show (h.alloc (h.get dref)).2 = h.cells.length from rfl]
      set H0 : Heap := ⟨h.cells ++ [h.get dref]⟩ with hH0
      set H1 := merge_loop_heap H0 h.cells.length symbols with hH1
      have hH0get : H0.get dref = h.get dref := Heap.get_alloc_of_lt hd _
      have hH1get : H1.get dref = h.get dref := by
        rw [hH1, merge_loop_heap_get_ne symbols hmne, hH0get]
      have hH1len : H1.cells.length = h.cells.length + 1 := by
        rw [hH1, merge_loop_heap_length]
        simp [hH0]
      by_cases hz : (List.map Prod.snd (H1.get h.cells.length)).sum ≤ 0
      · rw [if_pos hz]
        have hd2 : dref < H1.cells.length := by omega
        refine ⟨?_, ?_, ?_⟩
        · exact (Heap.get_alloc_of_lt hd2 (H1.get dref)).trans hH1get
        · show dref < (H1.cells ++ [H1.get dref]).length
          simp only [List.length_append, List.length_cons, List.length_nil]
          omega
        · intro m hm
          rw [show ((H1.alloc (H1.get dref)).2 : Nat) = H1.cells.length from rfl] at hm
          simp only [Except.ok.injEq] at hm
          omega
      · rw [if_neg hz]
        refine ⟨hH1get, ?_, ?_⟩
        · show dref < H1.cells.length
          omega
        · intro m hm
          simp only [Except.ok.injEq] at hm
          omega

/-- Frame property of `generate_weighted_strip_heap`: the default-table
cell is untouched (the bomb-multiplier writes hit only the per-call
working copy returned by the loader). -/
theorem generate_weighted_strip_heap_frame (h : Heap) (dref : Nat) (src : ReadResult)
    (length : Nat) (bias_symbols : Option (List String)) (bomb_multiplier : JsonVal)
    (rand : Rand) (hd : dref < h.cells.length) :
    ((generate_weighted_strip_heap h dref src length bias_symbols bomb_multiplier rand).1).get dref
      = h.get dref := by
  rcases hload : load_symbol_weights_heap h dref src with ⟨h1, res⟩
  have hframe := load_symbol_weights_heap_frame h dref src hd
  rw [hload] at hframe
  obtain ⟨hget, hlen, hok⟩ := hframe
  cases res with
  | error e =>
    simp only [generate_weighted_strip_heap, hload]
    exact hget
  | ok m =>
    have hmne : m ≠ dref := hok m rfl
    have hH2 : ∀ t1 t2 : WeightTable, ((h1.write m t1).write m t2).get dref = h.get dref :=
      fun t1 t2 => (Heap.get_write_ne hmne t2).trans ((Heap.get_write_ne hmne t1).trans hget)
    simp only [generate_weighted_strip_heap, hload]
    repeat' split
    all_goals first
      | exact hH2 _ _
      | exact hget

/-- Positive total weight forces a nonempty table, hence a nonempty
population of keys. -/
theorem keys_ne_nil_of_sum_pos {m : WeightTable} (h : 0 < (m.map Prod.snd).sum) :
    m.map Prod.fst ≠ [] := by
  cases m with
  | nil => simp at h
  | cons p t => simp

/-- The default bomb multiplier 1.0 normalizes to 1 and leaves the
table untouched. -/
theorem bomb_adjust_num_one (m : WeightTable) :
    bomb_adjust m (normalize_bm (.num 1)) = m := by
  have hbm : normalize_bm (.num 1) = 1 := by norm_num [normalize_bm, pyFloat]
  rw [hbm, bomb_adjust]
  simp

/-- Evaluated form of `load_symbol_weights` on a parsed document whose
`symbols` extraction succeeds. -/
theorem load_symbol_weights_parsed_eq (data : JsonVal)
    (symbols : List (String × JsonVal)) (hsym : pyGetSymbols data = .ok symbols) :
    load_symbol_weights (.parsed data) =
      (if ((mergeWeights DEFAULT_WEIGHTS symbols).map Prod.snd).sum ≤ 0 then
        .ok DEFAULT_WEIGHTS
      else .ok (mergeWeights DEFAULT_WEIGHTS symbols)) := by
  simp only [load_symbol_weights]
  rw [hsym]
  rfl

theorem pyOrEmptyDict_obj (fields : List (String × JsonVal)) :
    pyOrEmptyDict (.obj fields) = .ok (if fields.isEmpty then [] else fields) := by
  rw [pyOrEmptyDict]
  by_cases hf : fields.isEmpty
  · simp [pyFalsy, hf]
  · simp [pyFalsy, hf]

/-- Evaluated form of `get_reel_strip_length` on a parsed object. -/
theorem get_reel_strip_length_parsed_obj (fields : List (String × JsonVal)) :
    get_reel_strip_length (.parsed (.obj fields)) =
      .ok (max 3 ((pyInt ((List.lookup "reel_strip_length"
        (if fields.isEmpty then [] else fields)).getD (.num 6))).getD 6)) := by
  show (do
      let y ← pyOrEmptyDict (JsonVal.obj fields)
      pure (max 3 ((pyInt ((List.lookup "reel_strip_length" y).getD
        (JsonVal.num 6))).getD 6)) : Except PyErr Int) = _
  rw [pyOrEmptyDict_obj]
  rfl

/-- Evaluated form of `generate_weighted_strip` when the adjusted total
weight is positive (so `random.choices` does not raise). -/
theorem generate_weighted_strip_eq_of_pos (wm : WeightTable) (L : Nat)
    (bias : Option (List String)) (v : JsonVal) (rand : Rand)
    (hsum : 0 < ((bomb_adjust wm (normalize_bm v)).map Prod.snd).sum) :
    generate_weighted_strip wm L bias v rand =
      (let strip := rand.choicesFn ((bomb_adjust wm (normalize_bm v)).map Prod.fst)
        ((bomb_adjust wm (normalize_bm v)).map Prod.snd) L
       match bias with
       | some bs => if bs.isEmpty then .ok strip else .ok (rig_loop bs rand strip bs 0)
       | none => .ok strip) := by
  simp only [generate_weighted_strip, if_neg (not_le.mpr hsum)]

/-- The default table keeps a positive total under the default
multiplier 1.0. -/
theorem default_sum_pos_after_one :
    0 < ((bomb_adjust DEFAULT_WEIGHTS (normalize_bm (.num 1))).map Prod.snd).sum := by
  rw [bomb_adjust_num_one]
  norm_num [DEFAULT_WEIGHTS]

/-!  ### Claims C2, C3, C4: the configuration loaders. -/

/-- C2, counterexample: the claim quantifies over every document whose
weights are all zero, but a document that zeroes only `coin_1` leaves
the remaining defaults positive, so the merged table — not the default
mapping — is returned, and generation no longer behaves like the
defaults (`coin_1` can never be drawn). -/
theorem C2_counterexample :
    load_symbol_weights (.parsed (JsonVal.obj [("symbols",
        JsonVal.obj [("coin_1", JsonVal.obj [("probability", JsonVal.num 0)])])])) =
      .ok [("coin_1", 0), ("coin_stack", 10), ("coin_pile", 5), ("gem_1", 15),
        ("gem_many", 5), ("bomb_1", 15), ("bomb_atom", 5), ("card_item", 10),
        ("random_item", 5)] ∧
    ([("coin_1", 0), ("coin_stack", 10), ("coin_pile", 5), ("gem_1", 15),
        ("gem_many", 5), ("bomb_1", 15), ("bomb_atom", 5), ("card_item", 10),
        ("random_item", 5)] : WeightTable) ≠ DEFAULT_WEIGHTS := by
  constructor
  · rw [load_symbol_weights_parsed_eq (JsonVal.obj [("symbols",
        JsonVal.obj [("coin_1", JsonVal.obj [("probability", JsonVal.num 0)])])])
      [("coin_1", JsonVal.obj [("probability", JsonVal.num 0)])] rfl]
    have hm : mergeWeights DEFAULT_WEIGHTS
        [("coin_1", JsonVal.obj [("probability", JsonVal.num 0)])] =
        [("coin_1", 0), ("coin_stack", 10), ("coin_pile", 5), ("gem_1", 15),
          ("gem_many", 5), ("bomb_1", 15), ("bomb_atom", 5), ("card_item", 10),
          ("random_item", 5)] := by decide
    rw [hm, if_neg (by norm_num)]
  · decide

/-- C2, amended: an unparseable weight-override source falls back to
the built-in default table with no error; and a document whose merge
result carries only zero weights (for instance one that assigns zero to
every symbol of the table) also falls back to the default table. -/
theorem C2_fallback_amended :
    load_symbol_weights .readError = .ok DEFAULT_WEIGHTS ∧
    (∀ (data : JsonVal) (symbols : List (String × JsonVal)),
      pyGetSymbols data = .ok symbols →
      (∀ p ∈ mergeWeights DEFAULT_WEIGHTS symbols, p.2 = 0) →
      load_symbol_weights (.parsed data) = .ok DEFAULT_WEIGHTS) := by
  refine ⟨rfl, ?_⟩
  intro data symbols hsym hz
  rw [load_symbol_weights_parsed_eq data symbols hsym]
  have hsum : ((mergeWeights DEFAULT_WEIGHTS symbols).map Prod.snd).sum = 0 := by
    apply List.sum_eq_zero
    intro x hx
    rcases List.mem_map.mp hx with ⟨p, hp, he⟩
    rw [← he]
    exact hz p hp
  rw [if_pos (le_of_eq hsum)]

/-- C3, counterexample: a present-but-malformed `config.json` makes
`json.load` raise `json.JSONDecodeError`, which `load_config` does not
catch (it catches only `FileNotFoundError`), so `get_reel_strip_length`
propagates the error instead of returning 6. -/
theorem C3_counterexample :
    get_reel_strip_length .readError = .error .valueError ∧
    (Except.error PyErr.valueError : Except PyErr Int) ≠ .ok 6 :=
  ⟨rfl, fun h => Except.noConfusion h⟩

/-- C3, amended: an absent configuration file yields 6; a parsed
configuration with `reel_strip_length` missing or not convertible by
`int` yields 6; a numeric value `v` yields `max 3 (int(v))` (so the
configured value 1 yields 3); but a present, unparseable configuration
raises the parse error instead of yielding 6. -/
theorem C3_strip_length_amended :
    (get_reel_strip_length .fileNotFound = .ok 6) ∧
    (get_reel_strip_length .readError = .error .valueError) ∧
    (∀ fields : List (String × JsonVal),
      List.lookup "reel_strip_length" fields = none →
      get_reel_strip_length (.parsed (.obj fields)) = .ok 6) ∧
    (∀ (fields : List (String × JsonVal)) (v : JsonVal),
      List.lookup "reel_strip_length" fields = some v → pyInt v = none →
      get_reel_strip_length (.parsed (.obj fields)) = .ok 6) ∧
    (∀ (fields : List (String × JsonVal)) (q : ℚ),
      List.lookup "reel_strip_length" fields = some (.num q) →
      get_reel_strip_length (.parsed (.obj fields)) = .ok (max 3 (pyTrunc q))) := by
  refine ⟨rfl, rfl, ?_, ?_, ?_⟩
  · intro fields h
    rw [get_reel_strip_length_parsed_obj]
    by_cases hf : fields.isEmpty
    · simp only [hf, if_pos]
      congr 1
    · simp only [hf, Bool.false_eq_true, if_neg, not_false_iff]
      rw [h]
      congr 1
  · intro fields v hl hpy
    have hne : fields.isEmpty = false := by
      cases fields with
      | nil => simp at hl
      | cons a t => rfl
    rw [get_reel_strip_length_parsed_obj]
    simp only [hne, Bool.false_eq_true, if_neg, not_false_iff]
    rw [hl]
    simp only [Option.getD_some, hpy, Option.getD_none]
    rfl
  · intro fields q hl
    have hne : fields.isEmpty = false := by
      cases fields with
      | nil => simp at hl
      | cons a t => rfl
    rw [get_reel_strip_length_parsed_obj]
    simp only [hne, Bool.false_eq_true, if_neg, not_false_iff]
    rw [hl]
    rfl

/-- C4: every table `load_symbol_weights` actually returns has only
non-negative weights and a strictly positive total; and whenever the
merged table would total ≤ 0, the built-in default table is returned
instead. -/
theorem C4_weight_table_invariant :
    (∀ (src : ReadResult) (t : WeightTable), load_symbol_weights src = .ok t →
      (∀ p ∈ t, 0 ≤ p.2) ∧ 0 < (t.map Prod.snd).sum) ∧
    (∀ (data : JsonVal) (symbols : List (String × JsonVal)),
      pyGetSymbols data = .ok symbols →
      ((mergeWeights DEFAULT_WEIGHTS symbols).map Prod.snd).sum ≤ 0 →
      load_symbol_weights (.parsed data) = .ok DEFAULT_WEIGHTS) := by
  constructor
  · intro src t h
    cases src with
    | fileNotFound =>
      have ht : t = DEFAULT_WEIGHTS := by
        simpa [load_symbol_weights] using h.symm
      subst ht
      exact ⟨DEFAULT_WEIGHTS_nonneg, DEFAULT_WEIGHTS_sum_pos⟩
    | readError =>
      have ht : t = DEFAULT_WEIGHTS := by
        simpa [load_symbol_weights] using h.symm
      subst ht
      exact ⟨DEFAULT_WEIGHTS_nonneg, DEFAULT_WEIGHTS_sum_pos⟩
    | parsed data =>
      rcases hsym : pyGetSymbols data with e | symbols
      · have : load_symbol_weights (.parsed data) = .error e := by
          simp only [load_symbol_weights]
          rw [hsym]
          rfl
        rw [this] at h
        exact Except.noConfusion h
      · rw [load_symbol_weights_parsed_eq data symbols hsym] at h
        by_cases hz : ((mergeWeights DEFAULT_WEIGHTS symbols).map Prod.snd).sum ≤ 0
        · rw [if_pos hz] at h
          have ht : t = DEFAULT_WEIGHTS := by
            simpa using h.symm
          subst ht
          exact ⟨DEFAULT_WEIGHTS_nonneg, DEFAULT_WEIGHTS_sum_pos⟩
        · rw [if_neg hz] at h
          have ht : t = mergeWeights DEFAULT_WEIGHTS symbols := by
            simpa using h.symm
          subst ht
          exact ⟨mergeWeights_nonneg symbols DEFAULT_WEIGHTS DEFAULT_WEIGHTS_nonneg,
            lt_of_not_le hz⟩
  · intro data symbols hsym hz
    rw [load_symbol_weights_parsed_eq data symbols hsym, if_pos hz]

/-!  ### Claims C1, C5, C6, C7, C8, C9, C10: the generator. -/

/-- C1, counterexample: with the default table, strip length 3 and the
distinct bias list `[coin_1, gem_1, bomb_1]` of length 3 ≤ L, the
outcome in which the base draw is `[coin_1, coin_1, coin_1]` leaves no
eligible position for any insertion (every slot already holds a
bias-list symbol), so `gem_1` never makes it into the returned strip. -/
theorem C1_counterexample :
    RandValid exRand ∧
    (["coin_1", "gem_1", "bomb_1"] : List String).Nodup ∧
    (["coin_1", "gem_1", "bomb_1"] : List String).length ≤ 3 ∧
    generate_weighted_strip DEFAULT_WEIGHTS 3 (some ["coin_1", "gem_1", "bomb_1"])
      (.num 1) exRand = .ok ["coin_1", "coin_1", "coin_1"] ∧
    "gem_1" ∉ (["coin_1", "coin_1", "coin_1"] : List String) := by
  refine ⟨exRand_valid, by decide, by decide, ?_, by decide⟩
  rw [generate_weighted_strip_eq_of_pos _ _ _ _ _ default_sum_pos_after_one,
    bomb_adjust_num_one]
  decide

/-- C1, amended: for every supplied biasSymbols list and every outcome
of the draws, each bias symbol appears at least once in the returned
strip, unless the strip consists entirely of bias-list symbols (which
can happen when the base draw already fills the strip with bias-list
symbols, leaving no eligible position). -/
theorem C1_bias_coverage_amended (wm : WeightTable) (L : Nat) (bs : List String)
    (v : JsonVal) (rand : Rand) (strip : List String) (hr : RandValid rand)
    (hok : generate_weighted_strip wm L (some bs) v rand = .ok strip) :
    ∀ b ∈ bs, b ∈ strip ∨ ∀ s ∈ strip, s ∈ bs := by
  intro b hb
  by_cases hsum : ((bomb_adjust wm (normalize_bm v)).map Prod.snd).sum ≤ 0
  · have herr : generate_weighted_strip wm L (some bs) v rand = .error .valueError := by
      simp only [generate_weighted_strip, if_pos hsum]
    rw [herr] at hok
    exact Except.noConfusion hok
  · rw [generate_weighted_strip_eq_of_pos _ _ _ _ _ (lt_of_not_le hsum)] at hok
    cases hbse : bs.isEmpty with
    | true =>
      have : bs = [] := List.isEmpty_iff.mp hbse
      subst this
      cases hb
    | false =>
      simp only [hbse, Bool.false_eq_true, if_neg, not_false_iff] at hok
      have hstrip : strip = rig_loop bs rand
          (rand.choicesFn ((bomb_adjust wm (normalize_bm v)).map Prod.fst)
            ((bomb_adjust wm (normalize_bm v)).map Prod.snd) L) bs 0 := by
        simpa using hok.symm
      subst hstrip
      exact rig_loop_covers bs hr bs _ 0 (fun x hx => hx) b hb

/-- C5: with no bias list and the default multiplier, a positive-total
weight table yields exactly L symbols, each a key of the table. -/
theorem C5_strip_length_and_keys (wm : WeightTable) (L : Nat) (rand : Rand)
    (hr : RandValid rand) (hsum : 0 < (wm.map Prod.snd).sum) :
    ∃ strip, generate_weighted_strip wm L none (.num 1) rand = .ok strip ∧
      strip.length = L ∧ ∀ s ∈ strip, s ∈ wm.map Prod.fst := by
  have hsum2 : 0 < ((bomb_adjust wm (normalize_bm (.num 1))).map Prod.snd).sum := by
    rw [bomb_adjust_num_one]
    exact hsum
  rw [generate_weighted_strip_eq_of_pos _ _ _ _ _ hsum2, bomb_adjust_num_one]
  obtain ⟨hlen, hmem⟩ :=
    hr.1 (wm.map Prod.fst) (wm.map Prod.snd) L (keys_ne_nil_of_sum_pos hsum)
  exact ⟨_, rfl, hlen, hmem⟩

/-- C6: a non-numeric or negative bombMultiplier normalizes to 1.0 and
changes no weight; a valid non-negative multiplier other than 1.0
multiplies exactly the `bomb_1` and `bomb_atom` weights (when present)
and leaves every other binding unchanged. -/
theorem C6_bomb_multiplier_adjustment (wm : WeightTable) (v : JsonVal) :
    (pyFloat v = none → normalize_bm v = 1 ∧ bomb_adjust wm (normalize_bm v) = wm) ∧
    (∀ q : ℚ, pyFloat v = some q → q < 0 →
      normalize_bm v = 1 ∧ bomb_adjust wm (normalize_bm v) = wm) ∧
    (∀ q : ℚ, pyFloat v = some q → 0 ≤ q → q ≠ 1 →
      List.lookup "bomb_1" (bomb_adjust wm (normalize_bm v)) =
        (List.lookup "bomb_1" wm).map (fun w => w * q) ∧
      List.lookup "bomb_atom" (bomb_adjust wm (normalize_bm v)) =
        (List.lookup "bomb_atom" wm).map (fun w => w * q) ∧
      ∀ k : String, k ≠ "bomb_1" → k ≠ "bomb_atom" →
        List.lookup k (bomb_adjust wm (normalize_bm v)) = List.lookup k wm) := by
  refine ⟨?_, ?_, ?_⟩
  · intro h
    have hbm : normalize_bm v = 1 := by rw [normalize_bm, h]
    refine ⟨hbm, ?_⟩
    rw [hbm, bomb_adjust]
    simp
  · intro q h hq
    have hbm : normalize_bm v = 1 := by
      rw [normalize_bm, h]
      exact if_pos hq
    refine ⟨hbm, ?_⟩
    rw [hbm, bomb_adjust]
    simp
  · intro q h hq hq1
    have hbm : normalize_bm v = q := by
      rw [normalize_bm, h]
      exact if_neg (not_lt.mpr hq)
    rw [hbm, bomb_adjust, if_pos hq1]
    refine ⟨?_, ?_, ?_⟩
    · rw [lookup_mulKeyIfPresent_other _ (by decide : "bomb_1" ≠ "bomb_atom") q]
      exact lookup_mulKeyIfPresent_self wm "bomb_1" q
    · rw [lookup_mulKeyIfPresent_self,
        lookup_mulKeyIfPresent_other _ (by decide : "bomb_atom" ≠ "bomb_1") q]
    · intro k hk1 hk2
      rw [lookup_mulKeyIfPresent_other _ hk2 q, lookup_mulKeyIfPresent_other _ hk1 q]

/-- C7: the rigging pass never errors and never changes the strip
length, for every bias list — including lists longer than L. -/
theorem C7_rigging_is_safe (wm : WeightTable) (L : Nat) (bs : List String)
    (v : JsonVal) (rand : Rand) (hr : RandValid rand)
    (hsum : 0 < ((bomb_adjust wm (normalize_bm v)).map Prod.snd).sum) :
    ∃ strip, generate_weighted_strip wm L (some bs) v rand = .ok strip ∧
      strip.length = L := by
  obtain ⟨hlen, _⟩ := hr.1 ((bomb_adjust wm (normalize_bm v)).map Prod.fst)
    ((bomb_adjust wm (normalize_bm v)).map Prod.snd) L (keys_ne_nil_of_sum_pos hsum)
  cases hbse : bs.isEmpty with
  | true =>
    refine ⟨rand.choicesFn ((bomb_adjust wm (normalize_bm v)).map Prod.fst)
      ((bomb_adjust wm (normalize_bm v)).map Prod.snd) L, ?_, hlen⟩
    rw [generate_weighted_strip_eq_of_pos _ _ _ _ _ hsum]
    simp [hbse]
  | false =>
    refine ⟨rig_loop bs rand (rand.choicesFn ((bomb_adjust wm (normalize_bm v)).map Prod.fst)
      ((bomb_adjust wm (normalize_bm v)).map Prod.snd) L) bs 0, ?_, ?_⟩
    · rw [generate_weighted_strip_eq_of_pos _ _ _ _ _ hsum]
      simp [hbse]
    · rw [rig_loop_length]
      exact hlen

/-- C8: the position selected for overwriting never currently holds a
bias-list symbol, and consequently a position that holds a bias-list
symbol at any point of the rigging pass is never overwritten later. -/
theorem C8_rigging_stability (bs : List String) (rand : Rand)
    (strip rest : List String) (j p : Nat) (hr : RandValid rand) :
    (∀ i ∈ available_indices bs strip, strip.getD i "" ∉ bs) ∧
    (p < strip.length → strip.getD p "" ∈ bs →
      (rig_loop bs rand strip rest j).getD p "" = strip.getD p "") := by
  constructor
  · intro i hi
    exact (mem_available_indices.mp hi).2
  · intro hp hmem
    exact rig_loop_stable bs hr rest strip j hp hmem

/-- C9: neither stage mutates the module-level `DEFAULT_WEIGHTS` cell —
merging and the bomb-multiplier adjustment write only to freshly
allocated per-call copies, so the defaults read by any later call are
unchanged. -/
theorem C9_no_shared_mutation (h : Heap) (dref : Nat) (src : ReadResult)
    (L : Nat) (bias : Option (List String)) (v : JsonVal) (rand : Rand)
    (hd : dref < h.cells.length) :
    ((load_symbol_weights_heap h dref src).1).get dref = h.get dref ∧
    ((generate_weighted_strip_heap h dref src L bias v rand).1).get dref = h.get dref :=
  ⟨(load_symbol_weights_heap_frame h dref src hd).1,
    generate_weighted_strip_heap_frame h dref src L bias v rand hd⟩

/-- C10: a bias symbol that is not a key of the weight table is still
inserted (an eligible position always exists, since the base draw uses
only table keys), so the returned strip can contain symbols outside the
table's key set. -/
theorem C10_unknown_symbol_inserted (wm : WeightTable) (L : Nat) (v : JsonVal)
    (rand : Rand) (b : String) (hr : RandValid rand)
    (hsum : 0 < ((bomb_adjust wm (normalize_bm v)).map Prod.snd).sum)
    (hL : 0 < L) (hb : b ∉ wm.map Prod.fst) :
    ∃ strip, generate_weighted_strip wm L (some [b]) v rand = .ok strip ∧
      b ∈ strip := by
  rw [generate_weighted_strip_eq_of_pos _ _ _ _ _ hsum]
  have hkeys : (bomb_adjust wm (normalize_bm v)).map Prod.fst = wm.map Prod.fst :=
    keys_bomb_adjust wm _
  obtain ⟨hlen, hmem⟩ := hr.1 ((bomb_adjust wm (normalize_bm v)).map Prod.fst)
    ((bomb_adjust wm (normalize_bm v)).map Prod.snd) L (keys_ne_nil_of_sum_pos hsum)
  refine ⟨_, rfl, ?_⟩
  set base := rand.choicesFn ((bomb_adjust wm (normalize_bm v)).map Prod.fst)
    ((bomb_adjust wm (normalize_bm v)).map Prod.snd) L with hbase
  have havail : available_indices [b] base = List.range base.length := by
    rw [available_indices]
    apply List.filter_eq_self.mpr
    intro i hi
    rcases List.mem_range.mp hi with hilt
    simp only [decide_eq_true_eq, List.mem_singleton]
    intro he
    apply hb
    rw [← hkeys, ← he]
    exact hmem _ (getD_mem_of_lt hilt "")
  have hne : available_indices [b] base ≠ [] := by
    rw [havail, hlen]
    intro hcon
    rw [List.range_eq_nil] at hcon
    omega
  have hidx := hr.2 0 _ hne
  rcases mem_available_indices.mp hidx with ⟨hilt, _⟩
  have hloop : rig_loop [b] rand base [b] 0 =
      base.set (rand.choiceFn 0 (available_indices [b] base)) b := by
    show rig_step [b] rand base b 0 = _
    rw [rig_step, if_neg hne]
  show b ∈ rig_loop [b] rand base [b] 0
  rw [hloop]
  have hget : (base.set (rand.choiceFn 0 (available_indices [b] base)) b).getD
      (rand.choiceFn 0 (available_indices [b] base)) "" = b := by
    simp [List.getD_eq_getElem?_getD, List.getElem?_set_self, hilt]
  have hilt2 : rand.choiceFn 0 (available_indices [b] base) <
      (base.set (rand.choiceFn 0 (available_indices [b] base)) b).length := by
    simpa using hilt
  have hfin := getD_mem_of_lt hilt2 ""
  rwa [hget] at hfin

/-!  ### Witnesses: each hypothesis-bearing claim theorem applied at a
concrete input. -/

/-- Witness for C1 (amended): with bias list `[gem_1]` and the head
oracle, the strip is `[gem_1, coin_1, ...]` and `gem_1` is covered. -/
theorem C1_witness :
    "gem_1" ∈ (["gem_1", "coin_1", "coin_1", "coin_1", "coin_1", "coin_1"] : List String) ∨
      ∀ s ∈ (["gem_1", "coin_1", "coin_1", "coin_1", "coin_1", "coin_1"] : List String),
        s ∈ (["gem_1"] : List String) :=
  C1_bias_coverage_amended DEFAULT_WEIGHTS 6 ["gem_1"] (.num 1) exRand
    ["gem_1", "coin_1", "coin_1", "coin_1", "coin_1", "coin_1"] exRand_valid
    (by
      rw [generate_weighted_strip_eq_of_pos _ _ _ _ _ default_sum_pos_after_one,
        bomb_adjust_num_one]
      decide)
    "gem_1" (by decide)

/-- Witness for C2 (amended): a document that zeroes every default
symbol merges to an all-zero table and falls back to the defaults. -/
theorem C2_witness :
    load_symbol_weights (.parsed (JsonVal.obj [("symbols", JsonVal.obj [
      ("coin_1", JsonVal.obj [("probability", JsonVal.num 0)]),
      ("coin_stack", JsonVal.obj [("probability", JsonVal.num 0)]),
      ("coin_pile", JsonVal.obj [("probability", JsonVal.num 0)]),
      ("gem_1", JsonVal.obj [("probability", JsonVal.num 0)]),
      ("gem_many", JsonVal.obj [("probability", JsonVal.num 0)]),
      ("bomb_1", JsonVal.obj [("probability", JsonVal.num 0)]),
      ("bomb_atom", JsonVal.obj [("probability", JsonVal.num 0)]),
      ("card_item", JsonVal.obj [("probability", JsonVal.num 0)]),
      ("random_item", JsonVal.obj [("probability", JsonVal.num 0)])])])) =
      .ok DEFAULT_WEIGHTS :=
  C2_fallback_amended.2 _
    [("coin_1", JsonVal.obj [("probability", JsonVal.num 0)]),
      ("coin_stack", JsonVal.obj [("probability", JsonVal.num 0)]),
      ("coin_pile", JsonVal.obj [("probability", JsonVal.num 0)]),
      ("gem_1", JsonVal.obj [("probability", JsonVal.num 0)]),
      ("gem_many", JsonVal.obj [("probability", JsonVal.num 0)]),
      ("bomb_1", JsonVal.obj [("probability", JsonVal.num 0)]),
      ("bomb_atom", JsonVal.obj [("probability", JsonVal.num 0)]),
      ("card_item", JsonVal.obj [("probability", JsonVal.num 0)]),
      ("random_item", JsonVal.obj [("probability", JsonVal.num 0)])]
    rfl (by decide)

/-- Witness for C3 (amended): `reel_strip_length` configured as the
string `abc` yields 6; configured as 1 it yields 3. -/
theorem C3_witness :
    get_reel_strip_length (.parsed (.obj [("reel_strip_length", JsonVal.str "abc")])) = .ok 6 ∧
    get_reel_strip_length (.parsed (.obj [("reel_strip_length", JsonVal.num 1)])) = .ok 3 := by
  constructor
  · exact C3_strip_length_amended.2.2.2.1
      [("reel_strip_length", JsonVal.str "abc")] (JsonVal.str "abc") rfl (by decide)
  · have h := C3_strip_length_amended.2.2.2.2
      [("reel_strip_length", JsonVal.num 1)] 1 rfl
    rw [h]
    decide

/-- Witness for C4: the absent-file fallback returns the default table,
which is non-negative with positive total. -/
theorem C4_witness :
    (∀ p ∈ DEFAULT_WEIGHTS, 0 ≤ p.2) ∧ 0 < (DEFAULT_WEIGHTS.map Prod.snd).sum :=
  C4_weight_table_invariant.1 .fileNotFound DEFAULT_WEIGHTS rfl

/-- Witness for C5: the default table with L = 6 and the head oracle. -/
theorem C5_witness :
    ∃ strip, generate_weighted_strip DEFAULT_WEIGHTS 6 none (.num 1) exRand = .ok strip ∧
      strip.length = 6 ∧ ∀ s ∈ strip, s ∈ DEFAULT_WEIGHTS.map Prod.fst :=
  C5_strip_length_and_keys DEFAULT_WEIGHTS 6 exRand exRand_valid
    (by norm_num [DEFAULT_WEIGHTS])

/-- Witness for C6: multiplier 2 doubles the `bomb_1` weight of the
default table. -/
theorem C6_witness :
    List.lookup "bomb_1" (bomb_adjust DEFAULT_WEIGHTS (normalize_bm (.num 2))) =
      (List.lookup "bomb_1" DEFAULT_WEIGHTS).map (fun w => w * 2) :=
  ((C6_bomb_multiplier_adjustment DEFAULT_WEIGHTS (.num 2)).2.2 2 rfl
    (by norm_num) (by norm_num)).1

/-- Witness for C7: a bias list of five entries against a strip of
length 3 still returns a strip of length 3 without error. -/
theorem C7_witness :
    ∃ strip, generate_weighted_strip DEFAULT_WEIGHTS 3
      (some ["gem_1", "bomb_1", "coin_1", "card_item", "gem_many"]) (.num 1) exRand =
        .ok strip ∧ strip.length = 3 :=
  C7_rigging_is_safe DEFAULT_WEIGHTS 3 ["gem_1", "bomb_1", "coin_1", "card_item", "gem_many"]
    (.num 1) exRand exRand_valid default_sum_pos_after_one

/-- Witness for C8: in `[gem_1, coin_1]` with bias list `[gem_1]`, the
only eligible index holds a non-bias symbol, and index 0 (holding
`gem_1`) survives the rigging step unchanged. -/
theorem C8_witness :
    (["gem_1", "coin_1"] : List String).getD 1 "" ∉ (["gem_1"] : List String) ∧
    (rig_loop ["gem_1"] exRand ["gem_1", "coin_1"] ["gem_1"] 0).getD 0 "" =
      (["gem_1", "coin_1"] : List String).getD 0 "" :=
  ⟨(C8_rigging_stability ["gem_1"] exRand ["gem_1", "coin_1"] ["gem_1"] 0 0
      exRand_valid).1 1 (by decide),
    (C8_rigging_stability ["gem_1"] exRand ["gem_1", "coin_1"] ["gem_1"] 0 0
      exRand_valid).2 (by decide) (by decide)⟩

/-- Witness for C9: a one-cell heap holding the defaults is unchanged
at that cell by both heap-level functions. -/
theorem C9_witness :
    ((load_symbol_weights_heap ⟨[DEFAULT_WEIGHTS]⟩ 0 .fileNotFound).1).get 0 =
      (⟨[DEFAULT_WEIGHTS]⟩ : Heap).get 0 ∧
    ((generate_weighted_strip_heap ⟨[DEFAULT_WEIGHTS]⟩ 0 .fileNotFound 6 none
      (.num 1) exRand).1).get 0 = (⟨[DEFAULT_WEIGHTS]⟩ : Heap).get 0 :=
  C9_no_shared_mutation ⟨[DEFAULT_WEIGHTS]⟩ 0 .fileNotFound 6 none (.num 1) exRand
    (by decide)

/-- Witness for C10: the identifier `mystery_symbol`, not a key of the
default table, still ends up in the strip. -/
theorem C10_witness :
    ∃ strip, generate_weighted_strip DEFAULT_WEIGHTS 6 (some ["mystery_symbol"])
      (.num 1) exRand = .ok strip ∧ "mystery_symbol" ∈ strip :=
  C10_unknown_symbol_inserted DEFAULT_WEIGHTS 6 (.num 1) exRand "mystery_symbol"
    exRand_valid default_sum_pos_after_one (by decide) (by decide)

end Slotto
